import Mathlib

/-!
Verification of the availability / free-slot engine of the PersonalTools
calendar application (`calendar_screenshot_app`), against its natural-language
specification.

Times are modelled as integers counting microseconds since the Unix epoch
(the resolution Thunderbird itself uses and the finest resolution appearing
anywhere in the code).  All datetimes in the code are UTC-aware (naive ones
are localized to UTC on entry), so an instant is fully described by this
single integer.  Day 0 (1970-01-01) is a Thursday, so Python's
`weekday()` (Monday = 0) of the UTC day with index `d` is `(d + 3) % 7`.
-/

def usecPerMinute : Int := 60000000

def usecPerHour : Int := 3600000000

def usecPerDay : Int := 86400000000

/-- Python `weekday()` (Monday = 0 .. Sunday = 6) of the UTC day index `d`. -/
def dayWeekday (d : Int) : Int := (d + 3) % 7

/-- `weekday()` of the UTC instant `t` (microseconds since the epoch). -/
def weekday (t : Int) : Int := dayWeekday (t.fdiv usecPerDay)

/-- `t.replace(hour=h, minute=0, second=0, microsecond=0)` for a UTC-aware
datetime `t`: keep the calendar day, set the time of day to hour `h`. -/
def replaceHour (t h : Int) : Int := t.fdiv usecPerDay * usecPerDay + h * usecPerHour

/-- A calendar event as consumed by `app/services/availability.py`: a dict
with `start` / `end` datetimes plus identification fields (`id`,
`calendar_id`, `title`).  `stop` models the dict key `end`. -/
structure Event where
  id : String
  calendarId : String
  title : String
  start : Int
  stop : Int
deriving DecidableEq, Repr

/-- A raw timestamp field of a caller-supplied time-slot dict, as seen by
`parse_time_slot` in `app/utils/date_utils.py`: the key can be missing or
falsy (`absent`), present but rejected by `dateutil.parser.parse`
(`malformed`), or parse to a UTC instant (`parsed`; offset-naive strings are
localized to UTC by the code, so the parsed result is always an instant). -/
inductive RawTime where
  | absent : RawTime
  | malformed : RawTime
  | parsed : Int → RawTime
deriving DecidableEq, Repr

/-- A caller-supplied time-slot dict with `start` and `end` fields
(`stop` models the dict key `end`). -/
structure TimeSlotInput where
  start : RawTime
  stop : RawTime
deriving DecidableEq, Repr

/-- `parse_time_slot` (`app/utils/date_utils.py`, lines 6-38): returns
`(None, None)` when `start` is missing or unparsable, or when `end` is
present but unparsable (the exception aborts the whole call); when `end` is
missing or falsy the end defaults to `start + 1 hour`. -/
def parse_time_slot (slot : TimeSlotInput) : Option Int × Option Int :=
  match slot.start with
  | RawTime.parsed s =>
    match slot.stop with
    | RawTime.parsed e => (some s, some e)
    | RawTime.absent => (some s, some (s + usecPerHour))
    | RawTime.malformed => (none, none)
  | RawTime.absent => (none, none)
  | RawTime.malformed => (none, none)

/-- The conflict scan of `check_availability`
(`app/services/availability.py`, lines 31-44): the events whose interval
overlaps the slot under `slot_start < event_end and slot_end > event_start`. -/
def slot_conflicts (slotStart slotEnd : Int) (events : List Event) : List Event :=
  events.filter (fun ev => decide (slotStart < ev.stop) && decide (slotEnd > ev.start))

/-- One entry of the dictionary returned by `check_availability`: the
`available` flag, the conflict list, whether the `error: Invalid time
format` marker is present, and the echoed parsed bounds (absent on the
error entry, which carries neither `start` nor `end`). -/
structure SlotResult where
  available : Bool
  conflicts : List Event
  hasError : Bool
  start : Option Int
  stop : Option Int
deriving DecidableEq, Repr

/-- `check_availability` (`app/services/availability.py`, lines 5-56): each
slot is parsed; a slot whose parse fails yields a local
`{available: False, conflicts: [], error: ...}` entry and the loop
continues; a parsed slot gets its conflict list and
`available = (len(conflicts) == 0)`. -/
def check_availability (slots : List TimeSlotInput) (events : List Event) : List SlotResult :=
  slots.map (fun slot =>
    match parse_time_slot slot with
    | (some s, some e) =>
      let conflicts := slot_conflicts s e events
      { available := conflicts.length == 0
        conflicts := conflicts
        hasError := false
        start := some s
        stop := some e }
    | _ =>
      { available := false
        conflicts := []
        hasError := true
        start := none
        stop := none })

/-- `busy_periods.sort(key=lambda x: x[0])` of `find_available_slots`:
Python's stable sort by interval start, realized as a stable insertion
sort (an element is inserted after every element whose key is `<=` its
own, which reproduces the stable order by the first component). -/
def insertBusy (x : Int × Int) : List (Int × Int) → List (Int × Int)
  | [] => [x]
  | y :: ys => if y.1 ≤ x.1 then y :: insertBusy x ys else x :: y :: ys

/-- Stable sort of the busy periods by start time (line 92 of
`app/services/availability.py`). -/
def sortBusy : List (Int × Int) → List (Int × Int)
  | [] => []
  | x :: xs => insertBusy x (sortBusy xs)

/-- The inner `while slot_start + duration <= day_end` loop of
`find_available_slots` (`app/services/availability.py`, lines 110-134),
with an explicit fuel argument standing for the number of iterations the
unbounded Python loop is allowed to run (the loop does not terminate for
every input, e.g. `duration <= -30 minutes` on an event-free day).  On a
conflict the cursor jumps to the busy period's end; after the check the
code adds 30 minutes whenever the cursor equals the slot end, which is
always the case after emitting a slot. -/
def day_slots (busy : List (Int × Int)) (duration dayEnd : Int) :
    Nat → Int → List (Int × Int)
  | 0, _ => []
  | Nat.succ fuel, c =>
    if c + duration ≤ dayEnd then
      match busy.find? (fun b => decide (c < b.2) && decide (c + duration > b.1)) with
      | some b =>
        day_slots busy duration dayEnd fuel
          (if b.2 = c + duration then b.2 + 30 * usecPerMinute else b.2)
      | none =>
        (c, c + duration) :: day_slots busy duration dayEnd fuel
          (c + duration + 30 * usecPerMinute)
    else []

/-- The outer `while current_date <= end_date` loop of
`find_available_slots` (lines 98-138): weekend days (`weekday() >= 5`) are
skipped; on a retained day the inner scan runs from the day's
work start to its work end; then the cursor moves to the next day at the
work start hour. -/
def find_slots_days (busy : List (Int × Int))
    (duration startHour endHour endDate : Int) (innerFuel : Nat) :
    Nat → Int → List (Int × Int)
  | 0, _ => []
  | Nat.succ fuel, current =>
    if current ≤ endDate then
      if 5 ≤ weekday current then
        find_slots_days busy duration startHour endHour endDate innerFuel fuel
          (replaceHour (current + usecPerDay) startHour)
      else
        day_slots busy duration (replaceHour current endHour) innerFuel
            (replaceHour current startHour)
          ++ find_slots_days busy duration startHour endHour endDate innerFuel fuel
              (replaceHour (current + usecPerDay) startHour)
    else []

/-- `find_available_slots` (`app/services/availability.py`, lines 58-140).
`fuel` bounds the iteration counts of the two unbounded Python `while`
loops; on inputs where the Python loops terminate, any fuel at least the
number of iterations actually performed yields exactly the Python return
value (once both loop guards fail, extra fuel leaves the result
unchanged). -/
def find_available_slots (fuel : Nat) (startDate endDate : Int)
    (events : List Event) (durationMinutes startHour endHour : Int) :
    List (Int × Int) :=
  let startDate' := replaceHour startDate startHour
  let endDate' := replaceHour endDate endHour
  let duration := durationMinutes * usecPerMinute
  let busy := sortBusy (events.map (fun ev => (ev.start, ev.stop)))
  find_slots_days busy duration startHour endHour endDate' fuel fuel startDate'

theorem mem_insertBusy (x a : Int × Int) (l : List (Int × Int)) :
    a ∈ insertBusy x l ↔ a = x ∨ a ∈ l := by
  induction l with
  | nil => simp [insertBusy]
  | cons y ys ih =>
    simp only [insertBusy]
    split
    all_goals simp only [List.mem_cons, ih]
    all_goals tauto

theorem mem_sortBusy (a : Int × Int) (l : List (Int × Int)) :
    a ∈ sortBusy l ↔ a ∈ l := by
  induction l with
  | nil => simp [sortBusy]
  | cons x xs ih => simp [sortBusy, mem_insertBusy, ih]

theorem mem_slot_conflicts (s e : Int) (events : List Event) (ev : Event) :
    ev ∈ slot_conflicts s e events ↔ ev ∈ events ∧ s < ev.stop ∧ e > ev.start := by
  simp [slot_conflicts, List.mem_filter, and_assoc]

theorem day_slots_spec (busy : List (Int × Int)) (duration dayEnd : Int) :
    ∀ (fuel : Nat) (c : Int) (slot : Int × Int),
      slot ∈ day_slots busy duration dayEnd fuel c →
      slot.2 = slot.1 + duration ∧ slot.1 + duration ≤ dayEnd ∧
      (0 < duration → c ≤ slot.1) ∧
      ∀ b ∈ busy, ¬(slot.1 < b.2 ∧ slot.2 > b.1) := by
  intro fuel
  induction fuel with
  | zero => intro c slot h; simp [day_slots] at h
  | succ fuel ih =>
    intro c slot h
    simp only [day_slots] at h
    split at h
    case isFalse => simp at h
    case isTrue hle =>
      cases hfind : busy.find?
          (fun b => decide (c < b.2) && decide (c + duration > b.1)) with
      | some b =>
        rw [hfind] at h
        have hb : c < b.2 := by
          have := List.find?_some hfind
          simp only [Bool.and_eq_true, decide_eq_true_eq] at this
          exact this.1
        obtain ⟨hsh, hde, hcs, hbusy⟩ := ih _ _ h
        refine ⟨hsh, hde, fun hdur => le_trans ?_ (hcs hdur), hbusy⟩
        split
        · have : (0 : Int) < 30 * usecPerMinute := by decide
          omega
        · omega
      | none =>
        rw [hfind] at h
        rcases List.mem_cons.mp h with hhd | htl
        · subst hhd
          refine ⟨rfl, hle, fun _ => le_refl _, ?_⟩
          intro b hb hcon
          have := List.find?_eq_none.mp hfind b hb
          simp only [Bool.and_eq_true, decide_eq_true_eq, not_and] at this
          exact absurd (this hcon.1) (not_not.mpr hcon.2)
        · obtain ⟨hsh, hde, hcs, hbusy⟩ := ih _ _ htl
          refine ⟨hsh, hde, fun hdur => le_trans ?_ (hcs hdur), hbusy⟩
          have : (0 : Int) < 30 * usecPerMinute := by decide
          omega

theorem find_slots_days_spec (busy : List (Int × Int))
    (duration startHour endHour endDate : Int) (innerFuel : Nat) :
    ∀ (fuel : Nat) (current : Int) (slot : Int × Int),
      slot ∈ find_slots_days busy duration startHour endHour endDate innerFuel fuel current →
      (∃ d : Int, dayWeekday d < 5 ∧
        slot.2 = slot.1 + duration ∧
        slot.1 + duration ≤ d * usecPerDay + endHour * usecPerHour ∧
        (0 < duration → d * usecPerDay + startHour * usecPerHour ≤ slot.1)) ∧
      ∀ b ∈ busy, ¬(slot.1 < b.2 ∧ slot.2 > b.1) := by
  intro fuel
  induction fuel with
  | zero => intro current slot h; simp [find_slots_days] at h
  | succ fuel ih =>
    intro current slot h
    simp only [find_slots_days] at h
    split at h
    case isFalse => simp at h
    case isTrue =>
      split at h
      case isTrue => exact ih _ _ h
      case isFalse hwd =>
        rcases List.mem_append.mp h with h1 | h2
        · obtain ⟨hsh, hde, hcs, hbusy⟩ := day_slots_spec busy duration _ innerFuel _ slot h1
          refine ⟨⟨current.fdiv usecPerDay, not_le.mp hwd, hsh, ?_, ?_⟩, hbusy⟩
          · simpa only [replaceHour] using hde
          · intro hdur; simpa only [replaceHour] using hcs hdur
        · exact ih _ _ h2

/-- C2: every slot emitted by `find_available_slots` (at any loop-iteration
budget `fuel`) overlaps no input event under the half-open predicate
`slot.start < event.end and slot.end > event.start`. -/
theorem find_available_slots_no_overlap
    (fuel : Nat) (startDate endDate : Int) (events : List Event)
    (durationMinutes startHour endHour : Int) (slot : Int × Int) (ev : Event)
    (hslot : slot ∈ find_available_slots fuel startDate endDate events
      durationMinutes startHour endHour)
    (hev : ev ∈ events) :
    ¬(slot.1 < ev.stop ∧ slot.2 > ev.start) := by
  simp only [find_available_slots] at hslot
  refine (find_slots_days_spec _ _ _ _ _ _ _ _ _ hslot).2 (ev.start, ev.stop) ?_
  rw [mem_sortBusy]
  exact List.mem_map_of_mem _ hev

/-- Noon on Monday 1970-01-05, in microseconds since the epoch. -/
def monNoonUs : Int := 4 * usecPerDay + 12 * usecPerHour

/-- A concrete event on Monday 1970-01-05, 12:00-13:00 UTC. -/
def evNoon : Event :=
  { id := "ev-noon", calendarId := "thunderbird:cal", title := "Lunch"
    start := 4 * usecPerDay + 12 * usecPerHour
    stop := 4 * usecPerDay + 13 * usecPerHour }

theorem find_available_slots_no_overlap_witness :
    ¬((378000000000 : Int) < evNoon.stop ∧ (381600000000 : Int) > evNoon.start) :=
  find_available_slots_no_overlap 40 monNoonUs monNoonUs [evNoon] 60 9 17
    (378000000000, 381600000000) evNoon (by decide) (by decide)

/-- C3 evaluation: with `duration_minutes = 0` (and an otherwise ordinary
single-weekday range with no events), `find_available_slots` does not
return an empty list: it emits seventeen zero-length slots
09:00, 09:30, ..., 17:00.  The fuel 40 exceeds the number of iterations the
Python loops perform on this input, so this is the Python return value. -/
theorem find_available_slots_zero_duration_nonempty :
    find_available_slots 40 monNoonUs monNoonUs [] 0 9 17 ≠ [] := by decide

/-- C4: every slot emitted by `find_available_slots` (at any fuel) lies,
pointwise, within the working-hours window `[workStartHour, workEndHour)`
of a single calendar day whose weekday is not Saturday or Sunday.  The
hour arguments are constrained to `0..23`, the range Python's
`datetime.replace(hour=...)` accepts without raising. -/
theorem find_available_slots_within_working_hours
    (fuel : Nat) (startDate endDate : Int) (events : List Event)
    (durationMinutes startHour endHour : Int)
    (h1 : 0 ≤ startHour) (_h2 : startHour ≤ 23)
    (_h3 : 0 ≤ endHour) (h4 : endHour ≤ 23)
    (slot : Int × Int)
    (hslot : slot ∈ find_available_slots fuel startDate endDate events
      durationMinutes startHour endHour) :
    ∃ d : Int, dayWeekday d < 5 ∧
      ∀ t : Int, slot.1 ≤ t → t < slot.2 →
        d * usecPerDay + startHour * usecPerHour ≤ t ∧
        t < d * usecPerDay + endHour * usecPerHour ∧
        d * usecPerDay ≤ t ∧ t < (d + 1) * usecPerDay := by
  simp only [find_available_slots] at hslot
  obtain ⟨⟨d, hwd, hsh, hde, hcs⟩, -⟩ := find_slots_days_spec _ _ _ _ _ _ _ _ _ hslot
  refine ⟨d, hwd, ?_⟩
  intro t ht1 ht2
  rcases le_or_lt (durationMinutes * usecPerMinute) 0 with hdur | hdur
  · exfalso; omega
  · have hs := hcs hdur
    simp only [usecPerDay, usecPerHour, usecPerMinute] at *
    refine ⟨by omega, by omega, by nlinarith, by nlinarith⟩

/-- C1: a window `(s, e)` conflicts with an event `ev` exactly when
`s < ev.end` and `e > ev.start` (so touching endpoints never conflict), and
the window is reported available exactly when its conflict list is empty. -/
theorem check_availability_conflict_iff
    (s e : Int) (events : List Event) (ev : Event) (r : SlotResult)
    (hr : r ∈ check_availability [⟨RawTime.parsed s, RawTime.parsed e⟩] events) :
    (ev ∈ r.conflicts ↔ ev ∈ events ∧ s < ev.stop ∧ e > ev.start) ∧
    (r.available = true ↔ r.conflicts = []) := by
  simp only [check_availability, parse_time_slot, List.map, List.mem_singleton] at hr
  subst hr
  refine ⟨mem_slot_conflicts s e events ev, ?_⟩
  simp [List.length_eq_zero]

/-- The merge loop of the `/availability` route `check_calendar_availability`
(`app/routes/calendar_routes.py`, lines 177-203): for each selected
calendar source the fetched events are appended onto `all_events` with
`extend`, in source-iteration order.  No sort is applied to the merged
list. -/
def check_calendar_availability_merge (perSource : List (List Event)) : List Event :=
  perSource.foldl (fun acc evs => acc ++ evs) []

/-- The fetch loop of the `/events` route `get_events`
(`app/routes/calendar_routes.py`, lines 380-442): each per-source fetch
runs inside `try/except`; a fetch that raises contributes nothing (the
exception is printed and logged, nothing is recorded in the response) and
the loop continues with the next source.  `none` models a fetch that
raised; `some evs` a fetch returning `evs`. -/
def get_events_fetch_loop (fetches : List (Option (List Event))) : List Event :=
  fetches.foldl (fun acc f => acc ++ f.getD []) []

/-- Follows the spec's words for C5: "events are sorted by `start`
ascending, ties broken by `sourceId` then `id`": adjacent events are in
weakly increasing lexicographic `(start, calendar_id, id)` order. -/
def spec_sorted_events : List Event → Bool
  | [] => true
  | [_] => true
  | a :: b :: rest =>
    (decide (a.start < b.start) ||
      (decide (a.start = b.start) &&
        (decide (a.calendarId < b.calendarId) ||
          (decide (a.calendarId = b.calendarId) && decide (a.id ≤ b.id))))) &&
    spec_sorted_events (b :: rest)

/-- An event of source `s1` starting late on Monday 1970-01-05. -/
def evLate : Event :=
  { id := "a", calendarId := "google:s1", title := "Late"
    start := 4 * usecPerDay + 15 * usecPerHour
    stop := 4 * usecPerDay + 16 * usecPerHour }

/-- An event of source `s2` starting early on Monday 1970-01-05. -/
def evEarly : Event :=
  { id := "b", calendarId := "thunderbird:s2", title := "Early"
    start := 4 * usecPerDay + 10 * usecPerHour
    stop := 4 * usecPerDay + 11 * usecPerHour }

/-- C5 counterexample: when the first selected source returns a
later-starting event than the second source, the merged list produced by
`check_calendar_availability` is their concatenation in source order; it
is not sorted by `(start, sourceId, id)`, and swapping the source order
changes the merged order, so the order does depend on the order in which
sources return their events. -/
theorem merged_events_not_sorted :
    spec_sorted_events (check_calendar_availability_merge [[evLate], [evEarly]]) = false ∧
    check_calendar_availability_merge [[evLate], [evEarly]] ≠
      check_calendar_availability_merge [[evEarly], [evLate]] := by
  constructor
  · rfl
  · decide

theorem foldl_append_eq_flatten (acc : List Event) (perSource : List (List Event)) :
    perSource.foldl (fun acc evs => acc ++ evs) acc = acc ++ perSource.flatten := by
  induction perSource generalizing acc with
  | nil => simp
  | cons l ls ih => simp [List.foldl_cons, ih]

/-- C5 amended: the merged list is exactly the concatenation of the
per-source event lists in source-iteration order — it contains an event
iff some source's list contains it, and it is deterministic given that
order — but no global sort is applied. -/
theorem check_calendar_availability_merge_mem
    (perSource : List (List Event)) (ev : Event) :
    ev ∈ check_calendar_availability_merge perSource ↔
      ∃ l ∈ perSource, ev ∈ l := by
  unfold check_calendar_availability_merge
  rw [foldl_append_eq_flatten]
  simp [List.mem_flatten]

/-- C6 counterexample: with one failing source and one healthy source, the
`/events` fetch loop completes and its result is exactly the healthy
source's events — a bare event list.  The failure is only printed/logged;
no `SourceError` (nor any error marker at all) accompanies the partial
result, contradicting the claim that the failure is "reported alongside"
it. -/
theorem get_events_partial_result_no_error_report :
    get_events_fetch_loop [none, some [evEarly]] = [evEarly] := rfl

/-- C6 amended: a fetch that raises contributes nothing and does not abort
the loop; the merged output contains exactly the events of the sources
whose fetches succeeded, in iteration order. -/
theorem get_events_fetch_loop_mem
    (fetches : List (Option (List Event))) (ev : Event) :
    ev ∈ get_events_fetch_loop fetches ↔
      ∃ l, some l ∈ fetches ∧ ev ∈ l := by
  unfold get_events_fetch_loop
  induction fetches using List.reverseRecOn with
  | nil => simp
  | append_singleton fs f ih =>
    rw [List.foldl_append]
    cases f with
    | none => simp only [List.foldl_cons, List.foldl_nil, Option.getD_none,
        List.append_nil, ih]; simp
    | some l =>
      simp only [List.foldl_cons, List.foldl_nil, Option.getD_some, List.mem_append, ih]
      constructor
      · rintro (⟨l', hl', hev⟩ | hev)
        · exact ⟨l', by simp [hl'], hev⟩
        · exact ⟨l, by simp, hev⟩
      · rintro ⟨l', hl', hev⟩
        rcases hl' with h | h
        · exact Or.inl ⟨l', h, hev⟩
        · simp only [List.mem_singleton, Option.some.injEq] at h
          subst h; exact Or.inr hev

/-- The `hour` field of the UTC datetime at instant `t` (µs since epoch). -/
def dtHour (t : Int) : Int := (t.fmod usecPerDay).fdiv usecPerHour

/-- The `minute` field of the UTC datetime at instant `t`. -/
def dtMinute (t : Int) : Int := (t.fmod usecPerHour).fdiv usecPerMinute

/-- The `second` field of the UTC datetime at instant `t`. -/
def dtSecond (t : Int) : Int := (t.fmod usecPerMinute).fdiv 1000000

/-- The all-day resolution of the Thunderbird event loop in the `/events`
route (`app/routes/calendar_routes.py`, lines 941-954): the flag is bit 2
of the `flags` column (`flags & 4`, `False` when `flags` is NULL);
`start_midnight` checks `hour == 0 and minute == 0 and second == 0` of the
start datetime; `duration_days = (end - start).total_seconds() / 86400`
must satisfy `0.95 < duration_days < 1.05`, which at microsecond
resolution is exactly `82080000000 < end - start < 90720000000`; a set
flag that fails either check is overridden to `False`. -/
def resolve_all_day (flags : Option Nat) (startUs endUs : Int) : Bool :=
  let isAllDayFlag :=
    match flags with
    | some f => decide (f &&& 4 ≠ 0)
    | none => false
  let startMidnight :=
    decide (dtHour startUs = 0) && decide (dtMinute startUs = 0) &&
      decide (dtSecond startUs = 0)
  let durOk :=
    decide (82080000000 < endUs - startUs) && decide (endUs - startUs < 90720000000)
  if isAllDayFlag && !(startMidnight && durOk) then false else isAllDayFlag

/-- C7 counterexample: an event whose start is 500 µs after midnight (so
its start time is not midnight) with a 24-hour duration and the all-day
flag set keeps `allDay = true`, because the code checks midnight only at
second resolution (`hour == minute == second == 0`) and ignores
microseconds. -/
theorem all_day_kept_despite_nonmidnight_start :
    resolve_all_day (some 4) 500 86400000500 = true ∧
    (500 : Int) % usecPerDay ≠ 0 := by decide

/-- C7 amended: the flag survives exactly when it is set in bit 2 of
`flags` and the event's shape corroborates it with midnight measured at
second resolution (hour, minute and second of the start are zero;
sub-second microseconds are ignored) and a duration strictly between 0.95
and 1.05 of 24 hours; an event without the flag is never promoted. -/
theorem resolve_all_day_iff (flags : Option Nat) (startUs endUs : Int) :
    resolve_all_day flags startUs endUs = true ↔
      (∃ f, flags = some f ∧ f &&& 4 ≠ 0) ∧
      dtHour startUs = 0 ∧ dtMinute startUs = 0 ∧ dtSecond startUs = 0 ∧
      82080000000 < endUs - startUs ∧ endUs - startUs < 90720000000 := by
  cases flags with
  | none => simp [resolve_all_day]
  | some f =>
    have hb : ∀ (a b : Bool), (if a && !b then false else a) = (a && b) := by decide
    simp only [resolve_all_day]
    rw [hb]
    simp only [Bool.and_eq_true, decide_eq_true_eq, Option.some.injEq]
    constructor
    · rintro ⟨h1, ⟨⟨h2a, h2b⟩, h2c⟩, h3a, h3b⟩
      exact ⟨⟨f, rfl, h1⟩, h2a, h2b, h2c, h3a, h3b⟩
    · rintro ⟨⟨f', rfl, h1⟩, h2a, h2b, h2c, h3a, h3b⟩
      exact ⟨h1, ⟨⟨h2a, h2b⟩, h2c⟩, h3a, h3b⟩

/-- A civil (calendar) UTC time, the content of an ISO-8601 string
`Y-M-DTh:m:s` before any timezone designator. -/
structure CivilTime where
  year : Int
  month : Int
  day : Int
  hour : Int
  minute : Int
  second : Int
deriving DecidableEq, Repr

/-- Days from 1970-01-01 to the civil date `y-m-d` in the proleptic
Gregorian calendar (the standard days-from-civil computation used by every
datetime library the code calls into). -/
def daysFromCivil (y m d : Int) : Int :=
  let y' := if m ≤ 2 then y - 1 else y
  let era := y'.fdiv 400
  let yoe := y' - era * 400
  let mp := (m + 9) % 12
  let doy := (153 * mp + 2).fdiv 5 + d - 1
  let doe := yoe * 365 + yoe.fdiv 4 - yoe.fdiv 100 + doy
  era * 146097 + doe - 719468

/-- The UTC instant (µs since epoch) denoted by a civil UTC time. -/
def civilToEpochUs (c : CivilTime) : Int :=
  daysFromCivil c.year c.month c.day * usecPerDay +
    c.hour * usecPerHour + c.minute * usecPerMinute + c.second * 1000000

/-- `microseconds_to_datetime` (`app/services/thunderbird_calendar.py`,
lines 14-31): `if not microseconds: return None` rejects a falsy input —
including the integer 0, i.e. the epoch instant itself — and otherwise
returns the UTC datetime at `microseconds / 1000000` seconds since the
epoch, i.e. the instant itself. -/
def microseconds_to_datetime (micros : Int) : Option Int :=
  if micros = 0 then none else some micros

/-- Parse of an ISO-8601 string with a `Z` suffix (`dateutil` yields a
UTC-aware datetime; the instant is the civil time read as UTC). -/
def parse_iso_z (c : CivilTime) : Int := civilToEpochUs c

/-- Parse of an ISO-8601 string with an explicit `+hh:mm` offset of
`offMinutes` minutes: the denoted instant is the civil reading minus the
offset (`+00:00` is offset 0). -/
def parse_iso_offset (c : CivilTime) (offMinutes : Int) : Int :=
  civilToEpochUs c - offMinutes * usecPerMinute

/-- Parse of an offset-naive ISO-8601 string as done by `parse_time_slot`
(`app/utils/date_utils.py`, lines 19-29): the naive result is localized
to UTC (`pytz.UTC.localize`), so the instant is the civil reading as
UTC. -/
def parse_iso_naive (c : CivilTime) : Int := civilToEpochUs c

/-- C8 counterexample: at the epoch instant 1970-01-01T00:00:00Z — whose
epoch-microseconds encoding is the integer 0 — `microseconds_to_datetime`
returns `None` (Python's `if not microseconds` treats 0 as falsy), while
the ISO `Z` encoding of the same instant normalizes to the instant itself,
so the two encodings do not normalize to the same value. -/
theorem timestamp_epoch_encoding_divergence :
    microseconds_to_datetime (civilToEpochUs ⟨1970, 1, 1, 0, 0, 0⟩) = none ∧
    parse_iso_z ⟨1970, 1, 1, 0, 0, 0⟩ = 0 ∧
    microseconds_to_datetime (civilToEpochUs ⟨1970, 1, 1, 0, 0, 0⟩) ≠
      some (parse_iso_z ⟨1970, 1, 1, 0, 0, 0⟩) := by decide

/-- C8 amended: for every instant other than the epoch itself (whose
microsecond count 0 is falsy and rejected by `microseconds_to_datetime`),
the epoch-microseconds encoding, the ISO `...Z` encoding and the ISO
`...+00:00` encoding normalize to the same UTC instant, and an
offset-naive ISO timestamp is interpreted as UTC, agreeing with them. -/
theorem timestamp_encodings_agree (c : CivilTime)
    (h : civilToEpochUs c ≠ 0) :
    microseconds_to_datetime (civilToEpochUs c) = some (parse_iso_z c) ∧
    parse_iso_offset c 0 = parse_iso_z c ∧
    parse_iso_naive c = parse_iso_z c := by
  refine ⟨?_, by simp [parse_iso_offset, parse_iso_z], rfl⟩
  simp [microseconds_to_datetime, parse_iso_z, h]

theorem timestamp_encodings_agree_witness :
    microseconds_to_datetime (civilToEpochUs ⟨2025, 3, 18, 10, 0, 0⟩) =
      some (parse_iso_z ⟨2025, 3, 18, 10, 0, 0⟩) ∧
    parse_iso_offset ⟨2025, 3, 18, 10, 0, 0⟩ 0 = parse_iso_z ⟨2025, 3, 18, 10, 0, 0⟩ ∧
    parse_iso_naive ⟨2025, 3, 18, 10, 0, 0⟩ = parse_iso_z ⟨2025, 3, 18, 10, 0, 0⟩ :=
  timestamp_encodings_agree ⟨2025, 3, 18, 10, 0, 0⟩ (by decide)

/-- A concrete event from 00:30 to 01:30 UTC on 1970-01-01. -/
def evHalf : Event :=
  { id := "ev-half", calendarId := "apple:work", title := "Call"
    start := 1800000000, stop := 5400000000 }

/-- The `check_availability` entry for the window 00:00-01:00 UTC tested
against `[evHalf]`: the event overlaps, so the window is unavailable with
that single conflict. -/
def resHalf : SlotResult :=
  { available := false, conflicts := [evHalf], hasError := false
    start := some 0, stop := some 3600000000 }

theorem check_availability_conflict_iff_witness :
    (evHalf ∈ resHalf.conflicts ↔
      evHalf ∈ [evHalf] ∧ (0 : Int) < evHalf.stop ∧ (3600000000 : Int) > evHalf.start) ∧
    (resHalf.available = true ↔ resHalf.conflicts = []) :=
  check_availability_conflict_iff 0 3600000000 [evHalf] evHalf resHalf (by decide)

theorem find_available_slots_within_working_hours_witness :
    ∃ d : Int, dayWeekday d < 5 ∧
      ∀ t : Int, (378000000000 : Int) ≤ t → t < (381600000000 : Int) →
        d * usecPerDay + 9 * usecPerHour ≤ t ∧
        t < d * usecPerDay + 17 * usecPerHour ∧
        d * usecPerDay ≤ t ∧ t < (d + 1) * usecPerDay :=
  find_available_slots_within_working_hours 40 monNoonUs monNoonUs [] 60 9 17
    (by decide) (by decide) (by decide) (by decide)
    (378000000000, 381600000000) (by decide)

/-- C9 counterexample: a batch of three windows — one whose start does not
parse, one valid, and one inverted (`end <= start`) — is not rejected as a
whole: `check_availability` returns one entry per window, the unparsable
window getting a local `error` entry while both other windows get ordinary
per-window results, and the inverted window is processed as if valid (it
is even reported available). -/
theorem check_availability_partial_results :
    check_availability
      [⟨RawTime.malformed, RawTime.absent⟩,
       ⟨RawTime.parsed 345600000000, RawTime.parsed 349200000000⟩,
       ⟨RawTime.parsed 100, RawTime.parsed 50⟩] [] =
      [{ available := false, conflicts := [], hasError := true
         start := none, stop := none },
       { available := true, conflicts := [], hasError := false
         start := some 345600000000, stop := some 349200000000 },
       { available := true, conflicts := [], hasError := false
         start := some 100, stop := some 50 }] := rfl

/-- C9 amended: `check_availability` never fails as a whole — it returns
exactly one result per supplied window, and a window whose timestamps do
not parse only degrades locally, to an `error` entry that is marked
unavailable with an empty conflict list, while all other windows are still
processed; the invariant `start < end` is not validated at all. -/
theorem check_availability_processes_all_windows
    (slots : List TimeSlotInput) (events : List Event) (r : SlotResult)
    (hr : r ∈ check_availability slots events) :
    (check_availability slots events).length = slots.length ∧
    (r.hasError = true → r.available = false ∧ r.conflicts = []) := by
  refine ⟨List.length_map _ _, ?_⟩
  simp only [check_availability, List.mem_map] at hr
  obtain ⟨slot, -, hmk⟩ := hr
  intro herr
  cases hp : parse_time_slot slot with
  | mk o1 o2 =>
    rw [hp] at hmk
    match o1, o2, hmk with
    | some s, some e, hmk => rw [← hmk] at herr; simp at herr
    | some s, none, hmk => rw [← hmk]; exact ⟨rfl, rfl⟩
    | none, o2, hmk => rw [← hmk]; exact ⟨rfl, rfl⟩

/-- A time-slot dict whose `start` value `dateutil` cannot parse. -/
def slotBad : TimeSlotInput := ⟨RawTime.malformed, RawTime.absent⟩

/-- The `error: Invalid time format` entry produced for `slotBad`. -/
def resBad : SlotResult := ⟨false, [], true, none, none⟩

theorem check_availability_processes_all_windows_witness :
    (check_availability [slotBad] []).length = [slotBad].length ∧
    (resBad.available = false ∧ resBad.conflicts = []) :=
  ⟨(check_availability_processes_all_windows [slotBad] [] resBad (by decide)).1,
   (check_availability_processes_all_windows [slotBad] [] resBad (by decide)).2 rfl⟩

/-- C10: a slot whose `start` parses and whose `end` is absent or falsy is
not an error: `parse_time_slot` defaults the end to `start + 1 hour`, and
`check_availability` treats the window as an ordinary one-hour candidate —
its entry carries no error, echoes `start` and `start + 1h`, and is
available exactly when no event overlaps `[start, start + 1h)`. -/
theorem parse_time_slot_default_hour
    (t : Int) (events : List Event) (r : SlotResult)
    (hr : r ∈ check_availability [⟨RawTime.parsed t, RawTime.absent⟩] events) :
    parse_time_slot ⟨RawTime.parsed t, RawTime.absent⟩ =
      (some t, some (t + usecPerHour)) ∧
    r.hasError = false ∧ r.start = some t ∧ r.stop = some (t + usecPerHour) ∧
    (r.available = true ↔
      ∀ ev ∈ events, ¬(t < ev.stop ∧ t + usecPerHour > ev.start)) := by
  simp only [check_availability, parse_time_slot, List.map, List.mem_singleton] at hr
  subst hr
  refine ⟨rfl, rfl, rfl, rfl, ?_⟩
  simp only [beq_iff_eq, List.length_eq_zero, slot_conflicts, List.filter_eq_nil_iff]
  constructor
  · intro h ev hev hcon
    have := h ev hev
    simp only [Bool.and_eq_true, decide_eq_true_eq, not_and] at this
    exact absurd (this hcon.1) (not_not.mpr hcon.2)
  · intro h ev hev
    have := h ev hev
    simp only [Bool.and_eq_true, decide_eq_true_eq]
    tauto

theorem parse_time_slot_default_hour_witness :
    parse_time_slot ⟨RawTime.parsed 0, RawTime.absent⟩ =
      (some 0, some (0 + usecPerHour)) ∧
    resHalf.hasError = false ∧ resHalf.start = some 0 ∧
    resHalf.stop = some (0 + usecPerHour) ∧
    (resHalf.available = true ↔
      ∀ ev ∈ [evHalf], ¬((0 : Int) < ev.stop ∧ 0 + usecPerHour > ev.start)) :=
  parse_time_slot_default_hour 0 [evHalf] resHalf (by decide)
